import Mathlib

/-!
Shallow embedding of the ParsingBot scheduled ingestion/dedup/notify pipeline
(`src/scheduler.ts`, later revision, together with `src/services/aiService.ts`
and the Sequelize-backed stores), plus the earlier `scheduler.ts` revision's
naive per-pair delivery check, and theorems settling the spec claims.

Modelling conventions:
* machine strings are Lean `String`s (lists of Unicode code points); the
  JavaScript `String.prototype.length` (UTF-16 units) is modelled by the
  code-point count, which agrees on the threshold comparisons used here;
* Telegram chat identifiers are modelled as `Nat`;
* the database tables `parsed_data` (delivery facts) and `processed_leads`
  (notification cache) are lists written by appending, queried by scan;
* external nondeterminism (registry fetch outcomes per attempt, OpenAI call
  outcomes per attempt, per-recipient Telegram send outcomes) is supplied by
  an `Env` of oracles, so one `Env` value is one fixed world: a registry
  snapshot, an AI behaviour and a set of reachable chats;
* asynchronous constructs (`await`, `Promise.allSettled`) execute their
  effects in program order here; only the set of performed effects matters
  to the claims, not their interleaving.
-/

-- =================================================================
-- String utilities mirroring the JavaScript primitives used in the source
-- =================================================================

/-- Whitespace test for `String.prototype.trim`. -/
def jsIsSpace (c : Char) : Bool :=
  c = ' ' || c = '\t' || c = '\n' || c = '\r' || c = '\x0b' || c = '\x0c'

/-- Model of `String.prototype.trim`: strip whitespace from both ends. -/
def jsTrim (s : String) : String :=
  ⟨((s.data.dropWhile jsIsSpace).reverse.dropWhile jsIsSpace).reverse⟩

/-- Per-character case folding of `String.prototype.toLowerCase`, on the
alphabets that occur in this program (ASCII and Russian Cyrillic). -/
def jsLowerChar (c : Char) : Char :=
  if 'A' ≤ c ∧ c ≤ 'Z' then Char.ofNat (c.toNat + 32)
  else if 'А' ≤ c ∧ c ≤ 'Я' then Char.ofNat (c.toNat + 32)
  else if c = 'Ё' then 'ё'
  else c

/-- Model of `String.prototype.toLowerCase` on the alphabets used by the program. -/
def jsToLower (s : String) : String := ⟨s.data.map jsLowerChar⟩

/-- Model of `String.prototype.includes`: substring containment. -/
def includesSub (s pat : String) : Bool :=
  (List.range (s.data.length + 1)).any (fun i => pat.data.isPrefixOf (s.data.drop i))

/-- The decimal digit character for a digit value below ten. -/
def digitOf (n : Nat) : Char :=
  match n with
  | 0 => '0' | 1 => '1' | 2 => '2' | 3 => '3' | 4 => '4'
  | 5 => '5' | 6 => '6' | 7 => '7' | 8 => '8' | _ => '9'

/-- Digit list of a natural number, most significant first; the fuel bounds
the number of divisions and is always supplied large enough. -/
def natToDecAux : Nat → Nat → List Char
  | 0, _ => []
  | fuel + 1, n =>
    if n < 10 then [digitOf n]
    else natToDecAux fuel (n / 10) ++ [digitOf (n % 10)]

/-- Decimal rendering of a natural number, as JavaScript template literal
interpolation `${n}` renders a nonnegative integer. -/
def natToDec (n : Nat) : String := ⟨natToDecAux (n + 1) n⟩

/-- The `` `${userId}:${dataContent}` `` key used by the optimized scheduler
for the set of already-delivered (user, record) combinations. -/
def sentKey (u : Nat) (c : String) : String := natToDec u ++ ":" ++ c

-- =================================================================
-- Facts about the string utilities
-- =================================================================

theorem data_append (s t : String) : (s ++ t).data = s.data ++ t.data :=
  String.data_append s t

theorem digitOf_ne_colon {m : Nat} (h : m < 10) : digitOf m ≠ ':' := by
  interval_cases m <;> decide

/-- Numeric value of a digit character. -/
def digitVal (c : Char) : Nat := c.toNat - 48

theorem digitVal_digitOf {m : Nat} (h : m < 10) : digitVal (digitOf m) = m := by
  interval_cases m <;> decide

/-- Decode a digit list back to the number, most significant digit first. -/
def decValue (l : List Char) : Nat := l.foldl (fun a c => a * 10 + digitVal c) 0

theorem decValue_append_digit (l : List Char) (c : Char) :
    decValue (l ++ [c]) = decValue l * 10 + digitVal c := by
  simp [decValue]

theorem natToDecAux_spec : ∀ (fuel n : Nat), n < fuel →
    decValue (natToDecAux fuel n) = n ∧ ':' ∉ natToDecAux fuel n := by
  intro fuel
  induction fuel with
  | zero => intro n h; omega
  | succ fuel ih =>
    intro n h
    by_cases h10 : n < 10
    · refine ⟨?_, ?_⟩
      · simp [natToDecAux, h10, decValue, digitVal_digitOf h10]
      · simp only [natToDecAux, if_pos h10, List.mem_singleton]
        intro hc
        exact digitOf_ne_colon h10 hc.symm
    · have hdiv : n / 10 < fuel := by
        have h1 : n / 10 < n := Nat.div_lt_self (by omega) (by omega)
        omega
      obtain ⟨hval, hcol⟩ := ih (n / 10) hdiv
      refine ⟨?_, ?_⟩
      · simp only [natToDecAux, if_neg h10]
        rw [decValue_append_digit, hval, digitVal_digitOf (Nat.mod_lt n (by omega))]
        omega
      · simp only [natToDecAux, if_neg h10, List.mem_append, List.mem_singleton]
        rintro (hc | hc)
        · exact hcol hc
        · exact digitOf_ne_colon (Nat.mod_lt n (by omega)) hc.symm

theorem natToDec_no_colon (n : Nat) : ':' ∉ (natToDec n).data :=
  (natToDecAux_spec (n + 1) n (Nat.lt_succ_self n)).2

theorem natToDec_injective : Function.Injective natToDec := by
  intro a b h
  have ha := (natToDecAux_spec (a + 1) a (Nat.lt_succ_self a)).1
  have hb := (natToDecAux_spec (b + 1) b (Nat.lt_succ_self b)).1
  have hdata : natToDecAux (a + 1) a = natToDecAux (b + 1) b :=
    congrArg String.data h
  rw [hdata, hb] at ha
  exact ha.symm

theorem colon_append_inj :
    ∀ (a : List Char) (c : List Char) (b : List Char) (d : List Char),
      ':' ∉ a → ':' ∉ b → a ++ ':' :: c = b ++ ':' :: d → a = b ∧ c = d := by
  intro a
  induction a with
  | nil =>
    intro c b d _ hb h
    cases b with
    | nil => simpa using h
    | cons x b' =>
      simp only [List.nil_append, List.cons_append, List.cons.injEq] at h
      exact absurd (List.mem_cons_self x b') (h.1 ▸ hb)
  | cons x a' ih =>
    intro c b d ha hb h
    cases b with
    | nil =>
      simp only [List.cons_append, List.nil_append, List.cons.injEq] at h
      exact absurd (List.mem_cons_self x a') (h.1 ▸ ha)
    | cons y b' =>
      simp only [List.cons_append, List.cons.injEq] at h
      have ha' : ':' ∉ a' := fun hm => ha (List.mem_cons_of_mem x hm)
      have hb' : ':' ∉ b' := fun hm => hb (List.mem_cons_of_mem y hm)
      obtain ⟨h1, h2⟩ := ih c b' d ha' hb' h.2
      exact ⟨by rw [h.1, h1], h2⟩

theorem sentKey_inj {u u' : Nat} {c c' : String}
    (h : sentKey u c = sentKey u' c') : u = u' ∧ c = c' := by
  have hdata : (natToDec u).data ++ ':' :: c.data
      = (natToDec u').data ++ ':' :: c'.data := by
    have h1 := congrArg String.data h
    simpa [sentKey, data_append, List.append_assoc] using h1
  obtain ⟨h1, h2⟩ := colon_append_inj (natToDec u).data c.data
    (natToDec u').data c'.data (natToDec_no_colon u) (natToDec_no_colon u') hdata
  exact ⟨natToDec_injective (String.ext h1), String.ext h2⟩

-- =================================================================
-- Data model (src/types/egrz.types.ts, database models, scheduler state)
-- =================================================================

/-- One row of the registry CSV (`IEgrzRecord`), with the columns the
pipeline reads; absent columns are the empty string. -/
structure EgrzRecord where
  conclusionNumber : String
  expertiseResult : String
  preparerInfo : String
  developerInfo : String
  objectInfo : String
  conclusionDate : String
deriving DecidableEq

/-- The persistent stores: `parsed_data` rows are delivery facts
`(userId, dataContent)`, `processed_leads` rows are cache entries
`(conclusionNumber, processedMessage)`; both are append-only here. -/
structure DB where
  parsedData : List (Nat × String)
  processedLeads : List (String × String)
deriving DecidableEq

/-- Per-region run statistics (`ProcessingResult`). -/
structure ProcessingResult where
  region : String
  totalRecords : Nat
  processedRecords : Nat
  skippedRecords : Nat
  errorRecords : Nat
deriving DecidableEq

/-- One region together with its deduplicated subscriber list
(`RegionUserMap`). -/
structure RegionUserMap where
  region : String
  userIds : List Nat
deriving DecidableEq

/-- Outcome of one `bot.sendMessage` call to one recipient. -/
inductive SendOutcome where
  | success
  | blocked
  | chatNotFound
  | otherErr
deriving DecidableEq

/-- Outcome of one OpenAI chat-completion attempt: a response text (already
trimmed, `''` when the provider returned no content), or one of the error
classes the retry loop distinguishes. -/
inductive AIOutcome where
  | response (text : String)
  | errQuota
  | errRateLimit
  | errTimeout
  | errOther
deriving DecidableEq

/-- Outcome of one registry HTTP attempt: parsed records, a transient
network error (`ECONNRESET`/`ETIMEDOUT`/`ECONNABORTED`), or another error. -/
inductive FetchOutcome where
  | ok (records : List EgrzRecord)
  | netErr
  | otherErr
deriving DecidableEq

/-- The external world of one run: oracles for every nondeterministic call.
`aiOutcome` is keyed by conclusion number and attempt index, `sendOk` by
recipient and conclusion number, `sendFinalOk` by recipient and terminal
message text, `fetch` by region and attempt index. -/
structure Env where
  apiKeyPresent : Bool
  aiOutcome : String → Nat → AIOutcome
  sendOk : Nat → String → SendOutcome
  sendFinalOk : Nat → String → Bool
  fetch : String → Nat → FetchOutcome

/-- Effects a pipeline fragment performed: lead-notification send attempts
`(userId, conclusionNumber)` and cache writes `(conclusionNumber, text)`. -/
structure Trace where
  sends : List (Nat × String)
  cacheWrites : List (String × String)
deriving DecidableEq

/-- The empty trace. -/
def Trace.nil : Trace := ⟨[], []⟩

/-- Concatenation of traces of two consecutive fragments. -/
def Trace.app (t₁ t₂ : Trace) : Trace :=
  ⟨t₁.sends ++ t₂.sends, t₁.cacheWrites ++ t₂.cacheWrites⟩

theorem Trace.app_nil (t : Trace) : Trace.app t Trace.nil = t := by
  simp [Trace.app, Trace.nil]

theorem Trace.nil_app (t : Trace) : Trace.app Trace.nil t = t := by
  simp [Trace.app, Trace.nil]

namespace SCHEDULER_CONFIG

/-- Maximum execution time of one scheduled task (30 minutes, ms). -/
def MAX_EXECUTION_TIME : Nat := 30 * 60 * 1000

/-- Maximum number of registry fetch attempts. -/
def MAX_RETRIES : Nat := 3

/-- Delay between registry fetch attempts (ms). -/
def RETRY_DELAY : Nat := 5000

end SCHEDULER_CONFIG

namespace AI_CONFIG

/-- Maximum number of OpenAI attempts. -/
def MAX_RETRIES : Nat := 3

end AI_CONFIG

-- =================================================================
-- src/services/aiService.ts
-- =================================================================

/-- Model of `moment(s, 'DD.MM.YYYY').format('DD.MM.YYYY')`: a well-formed
`DD.MM.YYYY` date string renders unchanged, anything else renders as
moment's `Invalid date`. -/
def formatDate (s : String) : String :=
  match s.data with
  | [d1, d2, '.', m1, m2, '.', y1, y2, y3, y4] =>
    if [d1, d2, m1, m2, y1, y2, y3, y4].all Char.isDigit then s
    else "Invalid date"
  | _ => "Invalid date"

/-- The deterministic fallback notification text built at the top of
`processLeadWithAI`, interpolating the record's fields. -/
def fallbackText (r : EgrzRecord) (region formattedDate : String) : String :=
  "Новый лид за " ++ formattedDate ++ " (регион: " ++ region ++ ")\n" ++
  "Номер заключения: " ++ r.conclusionNumber ++ "\n" ++
  "Застройщик: " ++ r.developerInfo

/-- The section markers `validateAIResponse` requires. -/
def requiredElements : List String :=
  ["Номер заключения экспертизы:", "🏙️", "🏠", "🏭"]

/-- The refusal/apology phrases `validateAIResponse` rejects. -/
def invalidPhrases : List String :=
  ["я не могу", "извините", "не удалось", "ошибка", "как AI",
   "как искусственный интеллект"]

/-- Model of `validateAIResponse`: non-empty, at least 50 characters, contains every
required element, and the lowercased text contains no denylisted phrase. -/
def validateAIResponse (response : String) : Bool :=
  !(response == "") && !(response.data.length < 50) &&
  requiredElements.all (fun e => includesSub response e) &&
  invalidPhrases.all (fun p => !(includesSub (jsToLower response) p))

/-- The attempt loop of `processLeadWithAI`: `attempt` is the 1-based
attempt index, `fuel` the number of attempts left including this one
(`fuel = 0` models falling out of the loop, `fuel = 1` models
`isLastAttempt`). A response is returned when non-empty and valid; a quota
error falls back immediately; rate-limit, timeout, invalid-response and
other errors retry until the attempts are exhausted, then fall back. -/
def aiLoopAux (oracle : Nat → AIOutcome) (fb : String) : Nat → Nat → String
  | _, 0 => fb
  | attempt, fuel + 1 =>
    match oracle attempt with
    | .response t =>
      if t != "" && validateAIResponse t then t
      else if fuel == 0 then fb else aiLoopAux oracle fb (attempt + 1) fuel
    | .errQuota => fb
    | .errRateLimit => if fuel == 0 then fb else aiLoopAux oracle fb (attempt + 1) fuel
    | .errTimeout => if fuel == 0 then fb else aiLoopAux oracle fb (attempt + 1) fuel
    | .errOther => if fuel == 0 then fb else aiLoopAux oracle fb (attempt + 1) fuel

/-- Model of `processLeadWithAI`: build the fallback text, return it at once when the
API key is absent or the conclusion number is blank, otherwise run the
attempt loop. -/
def processLeadWithAI (env : Env) (r : EgrzRecord) (region : String) : String :=
  let formattedDate := formatDate r.conclusionDate
  let fb := fallbackText r region formattedDate
  if !env.apiKeyPresent then fb
  else if jsTrim r.conclusionNumber == "" then fb
  else aiLoopAux (env.aiOutcome r.conclusionNumber) fb 1 AI_CONFIG.MAX_RETRIES

theorem aiLoopAux_cases (oracle : Nat → AIOutcome) (fb : String) :
    ∀ fuel attempt, aiLoopAux oracle fb attempt fuel = fb ∨
      validateAIResponse (aiLoopAux oracle fb attempt fuel) = true := by
  intro fuel
  induction fuel with
  | zero => intro attempt; left; rfl
  | succ fuel ih =>
    intro attempt
    simp only [aiLoopAux]
    cases oracle attempt with
    | response t =>
      by_cases hv : (t != "" && validateAIResponse t) = true
      · right
        simp only [hv, if_true]
        exact (Bool.and_eq_true _ _ ▸ hv).2
      · simp only [hv, if_false]
        by_cases hf : (fuel == 0) = true <;> simp only [hf, if_true, if_false]
        · left; rfl
        · exact ih (attempt + 1)
    | errQuota => left; rfl
    | errRateLimit =>
      by_cases hf : (fuel == 0) = true <;> simp only [hf, if_true, if_false]
      · exact Or.inl trivial
      · exact ih (attempt + 1)
    | errTimeout =>
      by_cases hf : (fuel == 0) = true <;> simp only [hf, if_true, if_false]
      · exact Or.inl trivial
      · exact ih (attempt + 1)
    | errOther =>
      by_cases hf : (fuel == 0) = true <;> simp only [hf, if_true, if_false]
      · exact Or.inl trivial
      · exact ih (attempt + 1)

theorem fallbackText_ne_empty (r : EgrzRecord) (region formattedDate : String) :
    fallbackText r region formattedDate ≠ "" := by
  intro h
  have hd := congrArg String.data h
  simp [fallbackText, data_append] at hd

theorem processLeadWithAI_cases (env : Env) (r : EgrzRecord) (region : String) :
    processLeadWithAI env r region
        = fallbackText r region (formatDate r.conclusionDate) ∨
      validateAIResponse (processLeadWithAI env r region) = true := by
  unfold processLeadWithAI
  by_cases h1 : (!env.apiKeyPresent) = true
  · left; simp [h1]
  · by_cases h2 : (jsTrim r.conclusionNumber == "") = true
    · left; simp [h1, h2]
    · simp only [h1, h2, if_false, Bool.false_eq_true]
      exact aiLoopAux_cases _ _ _ _

theorem validateAIResponse_ne_empty {t : String}
    (h : validateAIResponse t = true) : t ≠ "" := by
  intro he
  subst he
  simp [validateAIResponse] at h

theorem processLeadWithAI_ne_empty (env : Env) (r : EgrzRecord)
    (region : String) : processLeadWithAI env r region ≠ "" := by
  rcases processLeadWithAI_cases env r region with h | h
  · rw [h]; exact fallbackText_ne_empty r region _
  · exact validateAIResponse_ne_empty h

-- =================================================================
-- src/scheduler.ts (optimized revision): caching and sending
-- =================================================================

/-- Model of `ProcessedLead.findOne({ where: { conclusionNumber } })`: first cache
entry for the key, if any. -/
def cacheLookup (db : DB) (num : String) : Option String :=
  (db.processedLeads.find? (fun p => p.1 == num)).map (·.2)

/-- Model of `getOrCreateProcessedMessage`: return the cached text on a hit;
otherwise run the AI pipeline and persist the result when it is non-empty
and carries the 🏙️ or 🏠 marker. Returns the message, the new store state
and the cache writes performed. -/
def getOrCreateProcessedMessage (env : Env) (db : DB) (r : EgrzRecord)
    (region num : String) : String × DB × List (String × String) :=
  match cacheLookup db num with
  | some msg => (msg, db, [])
  | none =>
    let msg := processLeadWithAI env r region
    if msg != "" && (includesSub msg "🏙️" || includesSub msg "🏠") then
      (msg, { db with processedLeads := db.processedLeads ++ [(num, msg)] },
       [(num, msg)])
    else (msg, db, [])

/-- Model of `sendMessageToUsers`: attempt a send to every listed recipient; record
the `parsed_data` delivery fact only after a successful send; a blocked bot
(403) or missing chat (400) is only logged, any other failure increments
the error counter; no failure stops the remaining sends. Returns the new
store state, the updated statistics and every attempt made. -/
def sendMessageToUsers (env : Env) (userIds : List Nat)
    (messageText uniqueNumber : String) (db : DB) (res : ProcessingResult) :
    DB × ProcessingResult × List (Nat × String) :=
  match userIds with
  | [] => (db, res, [])
  | u :: rest =>
    let step : DB × ProcessingResult :=
      match env.sendOk u uniqueNumber with
      | .success =>
        ({ db with parsedData := db.parsedData ++ [(u, uniqueNumber)] }, res)
      | .blocked => (db, res)
      | .chatNotFound => (db, res)
      | .otherErr => (db, { res with errorRecords := res.errorRecords + 1 })
    let rec' := sendMessageToUsers env rest messageText uniqueNumber step.1 step.2
    (rec'.1, rec'.2.1, (u, uniqueNumber) :: rec'.2.2)

-- =================================================================
-- src/scheduler.ts (optimized revision): per-record processing
-- =================================================================

/-- The bulk delivery-dedup query of `processRecordsOptimized`: all facts
whose user is in `userIds` and whose conclusion number is in `nums`,
collected as `userId:conclusionNumber` keys. -/
def sentCombinations (facts : List (Nat × String)) (userIds : List Nat)
    (nums : List String) : List String :=
  (facts.filter (fun f => userIds.contains f.1 && nums.contains f.2)).map
    (fun f => sentKey f.1 f.2)

/-- The recipient subset of `processIndividualRecord`: subscribers whose
`userId:conclusionNumber` key is not among the sent combinations. -/
def usersToSend (userIds : List Nat) (sc : List String) (num : String) :
    List Nat :=
  userIds.filter (fun u => !(sc.contains (sentKey u num)))

/-- Model of `processIndividualRecord`: skip blank conclusion numbers and records
whose developer info is the «не требуется» sentinel (counted as skipped);
otherwise compute the recipient subset, return at once when it is empty,
else resolve the message through the cache and send it to the subset. -/
def processIndividualRecord (env : Env) (r : EgrzRecord) (region : String)
    (userIds : List Nat) (sc : List String) (db : DB)
    (res : ProcessingResult) : DB × ProcessingResult × Trace :=
  if jsTrim r.conclusionNumber == "" then
    (db, { res with skippedRecords := res.skippedRecords + 1 }, Trace.nil)
  else if jsToLower (jsTrim r.developerInfo) == "не требуется" then
    (db, { res with skippedRecords := res.skippedRecords + 1 }, Trace.nil)
  else
    let toSend := usersToSend userIds sc r.conclusionNumber
    if toSend.isEmpty then (db, res, Trace.nil)
    else
      let gc := getOrCreateProcessedMessage env db r region r.conclusionNumber
      if gc.1 == "" then
        (gc.2.1, { res with skippedRecords := res.skippedRecords + 1 },
         ⟨[], gc.2.2⟩)
      else
        let sd := sendMessageToUsers env toSend gc.1 r.conclusionNumber gc.2.1 res
        (sd.1, { sd.2.1 with processedRecords := sd.2.1.processedRecords + 1 },
         ⟨sd.2.2, gc.2.2⟩)

/-- The record loop of `processRecordsOptimized`. -/
def processRecordsList (env : Env) (region : String) (userIds : List Nat)
    (sc : List String) : List EgrzRecord → DB → ProcessingResult →
    DB × ProcessingResult × Trace
  | [], db, res => (db, res, Trace.nil)
  | r :: rest, db, res =>
    let step := processIndividualRecord env r region userIds sc db res
    let next := processRecordsList env region userIds sc rest step.1 step.2.1
    (next.1, next.2.1, Trace.app step.2.2 next.2.2)

/-- Model of `records.map(r => r['Номер заключения экспертизы']).filter(num => num && num.trim())`. -/
def relevantNums (records : List EgrzRecord) : List String :=
  (records.map (·.conclusionNumber)).filter
    (fun num => num != "" && jsTrim num != "")

/-- Model of `processRecordsOptimized`: gather the valid conclusion numbers, return
early when none exists, issue the single bulk dedup query, then process
each record against the resulting key set. -/
def processRecordsOptimized (env : Env) (records : List EgrzRecord)
    (region : String) (userIds : List Nat) (db : DB)
    (res : ProcessingResult) : DB × ProcessingResult × Trace :=
  let allConclusionNumbers := relevantNums records
  if allConclusionNumbers.isEmpty then (db, res, Trace.nil)
  else
    let sc := sentCombinations db.parsedData userIds allConclusionNumbers
    processRecordsList env region userIds sc records db res

-- =================================================================
-- src/scheduler.ts (optimized revision): fetch retry and the region loop
-- =================================================================

/-- The attempt loop of `fetchEgrzDataWithRetry`; `fuel` counts the
attempts left including the current one (`fuel = 1` is `isLastAttempt`).
A transient network error sleeps `RETRY_DELAY` and retries, any other
error retries without the delay; the last attempt rethrows. Returns the
records or the raised error, paired with the delays slept. -/
def fetchRetryAux (oracle : Nat → FetchOutcome) :
    Nat → Nat → Except Unit (List EgrzRecord) × List Nat
  | _, 0 => (Except.ok [], [])
  | attempt, fuel + 1 =>
    match oracle attempt with
    | .ok records => (Except.ok records, [])
    | .netErr =>
      if fuel == 0 then (Except.error (), [])
      else
        let next := fetchRetryAux oracle (attempt + 1) fuel
        (next.1, SCHEDULER_CONFIG.RETRY_DELAY :: next.2)
    | .otherErr =>
      if fuel == 0 then (Except.error (), [])
      else fetchRetryAux oracle (attempt + 1) fuel

/-- Model of `fetchEgrzDataWithRetry` for one region's fetch oracle. -/
def fetchEgrzDataWithRetry (oracle : Nat → FetchOutcome) :
    Except Unit (List EgrzRecord) × List Nat :=
  fetchRetryAux oracle 1 SCHEDULER_CONFIG.MAX_RETRIES

/-- Model of `processRegion`: fetch with retries (rethrowing a final failure to the
caller), count the records, return early when none arrived, otherwise run
the optimized record processing. -/
def processRegion (env : Env) (m : RegionUserMap) (db : DB) :
    Except Unit (DB × ProcessingResult × Trace) :=
  match (fetchEgrzDataWithRetry (env.fetch m.region)).1 with
  | .error e => .error e
  | .ok records =>
    let res0 : ProcessingResult :=
      ⟨m.region, records.length, 0, 0, 0⟩
    if records.isEmpty then .ok (db, res0, Trace.nil)
    else .ok (processRecordsOptimized env records m.region m.userIds db res0)

/-- The per-region body of `executeMainTask`'s loop: a region whose
processing raised is recorded as one errored region and the loop goes on. -/
def regionStep (env : Env) (m : RegionUserMap) (db : DB) :
    DB × ProcessingResult × Trace :=
  match processRegion env m db with
  | .ok out => out
  | .error _ => (db, ⟨m.region, 0, 0, 0, 1⟩, Trace.nil)

/-- Model of `executeMainTask`: the sequential region loop (the empty-maps early
return included), collecting one `ProcessingResult` per region. -/
def executeMainTask (env : Env) : List RegionUserMap → DB →
    DB × List ProcessingResult × Trace
  | [], db => (db, [], Trace.nil)
  | m :: rest, db =>
    let step := regionStep env m db
    let next := executeMainTask env rest step.1
    (next.1, step.2.1 :: next.2.1, Trace.app step.2.2 next.2.2)

-- =================================================================
-- src/scheduler.ts (optimized revision): subscription aggregation
-- =================================================================

/-- Model of `regionToUsersMap.get(region)!.add(userId)` on the insertion-ordered
`Map<string, Set<number>>`: create the region entry when absent, then add
the user with set semantics. -/
def addUserToRegion (m : List (String × List Nat)) (region : String)
    (u : Nat) : List (String × List Nat) :=
  match m with
  | [] => [(region, [u])]
  | (r, us) :: rest =>
    if r == region then
      (r, if us.contains u then us else us ++ [u]) :: rest
    else (r, us) :: addUserToRegion rest region u

/-- Model of `collectRegionUserMaps`: fold every persisted configuration into the
region → subscriber-set map; a configuration that fails to parse, or whose
region list is absent or empty, is skipped. Configurations are given as
`(userId, parsed regions)` with `none` for an unparseable blob. -/
def collectRegionUserMaps (configs : List (Nat × Option (List String))) :
    List (String × List Nat) :=
  configs.foldl
    (fun m cfg =>
      match cfg.2 with
      | none => m
      | some regions =>
        if regions.isEmpty then m
        else regions.foldl (fun m' region => addUserToRegion m' region cfg.1) m)
    []

-- =================================================================
-- The earlier scheduler.ts revision: naive per-pair delivery check
-- =================================================================

/-- Model of `ParsedData.findOne({ where: { userId, dataContent: uniqueNumber } })`
of the earlier scheduler revision, as a Boolean. -/
def alreadySentNaive (facts : List (Nat × String)) (u : Nat) (c : String) :
    Bool :=
  (facts.find? (fun f => f.1 == u && f.2 == c)).isSome

-- =================================================================
-- src/scheduler.ts (optimized revision): run lock of the cron callback
-- =================================================================

/-- The module state guarding the cron callback: `isTaskRunning` and
`taskStartTime` (ms). -/
structure LockState where
  running : Bool
  startTime : Nat
deriving DecidableEq

/-- Log lines of the lock check the claims distinguish: the critical
force-unlock message and the overlap-skip warning. -/
inductive LogKind where
  | critical
  | skipWarn
deriving DecidableEq

/-- The cron callback: when a previous task is still running and its
elapsed time is within `MAX_EXECUTION_TIME`, skip this firing; when it
exceeds the maximum, log the critical condition, force-clear the lock and
start a new run; otherwise start normally. The run itself executes
`executeMainTask` and the `finally` clause releases the lock. Returns the
lock state after the callback, the store state, the run's trace and the
lock-check log lines. -/
def cronFire (env : Env) (st : LockState) (now : Nat)
    (maps : List RegionUserMap) (db : DB) :
    LockState × DB × Trace × List LogKind :=
  if st.running then
    if now - st.startTime > SCHEDULER_CONFIG.MAX_EXECUTION_TIME then
      let run := executeMainTask env maps db
      (⟨false, now⟩, run.1, run.2.2, [LogKind.critical])
    else (st, db, Trace.nil, [LogKind.skipWarn])
  else
    let run := executeMainTask env maps db
    (⟨false, now⟩, run.1, run.2.2, [])

-- =================================================================
-- src/scheduler.ts (optimized revision): triggerImmediateParse
-- =================================================================

/-- Model of `region.split(' - ')[0]`: the region text before the first ` - `. -/
def takeBeforeSep : List Char → List Char
  | [] => []
  | ' ' :: '-' :: ' ' :: _ => []
  | c :: rest => c :: takeBeforeSep rest

/-- Display name of a region, as interpolated into the no-data message. -/
def regionShortName (region : String) : String := ⟨takeBeforeSep region.data⟩

/-- The no-data terminal message of `triggerImmediateParse`. -/
def noDataText (region : String) : String :=
  "По региону \x22" ++ regionShortName region ++
  "\x22 за сегодня пока нет новых данных."

/-- The error terminal message of `triggerImmediateParse`'s catch clause. -/
def immediateErrorText : String :=
  "❌ При поиске произошла ошибка. Попробуйте добавить регион еще раз или обратитесь к администратору."

/-- The summary terminal message of `triggerImmediateParse`, from the sent
and skipped counters. -/
def finalMessageText (sentCount skippedCount : Nat) : String :=
  if sentCount > 0 then
    "✅ Первоначальный поиск завершен. Отправлено новых записей: " ++
    natToDec sentCount ++ "." ++
    (if skippedCount > 0 then
      "\nПропущено нерелевантных: " ++ natToDec skippedCount ++ "."
     else "")
  else if skippedCount > 0 then
    "✅ Первоначальный поиск завершен. Новых записей для отправки нет, т.к. найденные " ++
    natToDec skippedCount ++ " шт. были нерелевантны."
  else
    "✅ Первоначальный поиск завершен. Все найденные записи уже были отправлены вам ранее."

/-- The per-user pre-query of `triggerImmediateParse`: conclusion numbers
among `nums` already delivered to this user. -/
def immediateSentNumbers (facts : List (Nat × String)) (userId : Nat)
    (nums : List String) : List String :=
  (facts.filter (fun f => f.1 == userId && nums.contains f.2)).map (·.2)

/-- One iteration of `triggerImmediateParse`'s record loop: skip a falsy
conclusion number or a «не требуется» developer (counted as skipped), skip
an already-delivered number (not counted), otherwise resolve the message
through the cache and, when it is non-empty, attempt the send, recording
the delivery fact and bumping the sent counter only on success. Returns
the store state, the sent and skipped counters and the trace. -/
def immediateStep (env : Env) (region : String) (userId : Nat)
    (sentNumbers : List String) (r : EgrzRecord) (db : DB)
    (sentCount skippedCount : Nat) : DB × Nat × Nat × Trace :=
  if r.conclusionNumber == "" then (db, sentCount, skippedCount + 1, Trace.nil)
  else if jsToLower (jsTrim r.developerInfo) == "не требуется" then
    (db, sentCount, skippedCount + 1, Trace.nil)
  else if sentNumbers.contains r.conclusionNumber then
    (db, sentCount, skippedCount, Trace.nil)
  else
    let gc := getOrCreateProcessedMessage env db r region r.conclusionNumber
    if gc.1 == "" then (gc.2.1, sentCount, skippedCount, ⟨[], gc.2.2⟩)
    else
      match env.sendOk userId r.conclusionNumber with
      | .success =>
        ({ gc.2.1 with
            parsedData := gc.2.1.parsedData ++ [(userId, r.conclusionNumber)] },
         sentCount + 1, skippedCount,
         ⟨[(userId, r.conclusionNumber)], gc.2.2⟩)
      | _ => (gc.2.1, sentCount, skippedCount, ⟨[(userId, r.conclusionNumber)], gc.2.2⟩)

/-- The record loop of `triggerImmediateParse`. -/
def immediateLoop (env : Env) (region : String) (userId : Nat)
    (sentNumbers : List String) : List EgrzRecord → DB → Nat → Nat →
    DB × Nat × Nat × Trace
  | [], db, s, k => (db, s, k, Trace.nil)
  | r :: rest, db, s, k =>
    let step := immediateStep env region userId sentNumbers r db s k
    let next := immediateLoop env region userId sentNumbers rest step.1
      step.2.1 step.2.2.1
    (next.1, next.2.1, next.2.2.1, Trace.app step.2.2.2 next.2.2.2)

/-- Model of `triggerImmediateParse`: fetch the region with retries; on any raised
error the catch clause issues the error message; on an empty snapshot the
no-data message is issued; otherwise the record loop runs and the summary
is issued. A terminal send that itself fails is caught by the same catch
clause, which issues the error message. Returns the store state, the
lead-notification trace and the terminal messages issued to the user in
order. -/
def triggerImmediateParse (env : Env) (region : String) (userId : Nat)
    (db : DB) : DB × Trace × List String :=
  match (fetchEgrzDataWithRetry (env.fetch region)).1 with
  | .error _ => (db, Trace.nil, [immediateErrorText])
  | .ok records =>
    if records.isEmpty then
      if env.sendFinalOk userId (noDataText region) then
        (db, Trace.nil, [noDataText region])
      else (db, Trace.nil, [noDataText region, immediateErrorText])
    else
      let nums := (records.map (·.conclusionNumber)).filter (fun n => n != "")
      let sentNumbers := immediateSentNumbers db.parsedData userId nums
      let out := immediateLoop env region userId sentNumbers records db 0 0
      let fm := finalMessageText out.2.1 out.2.2.1
      if env.sendFinalOk userId fm then (out.1, out.2.2.2, [fm])
      else (out.1, out.2.2.2, [fm, immediateErrorText])

-- =================================================================
-- Shared auxiliary facts
-- =================================================================

theorem contains_iff_mem {α : Type} [BEq α] [LawfulBEq α] (l : List α)
    (a : α) : l.contains a = true ↔ a ∈ l := by
  rw [List.contains]
  exact List.elem_iff

theorem mem_sentCombinations_iff (facts : List (Nat × String))
    (userIds : List Nat) (nums : List String) (u : Nat) (c : String)
    (hu : u ∈ userIds) (hc : c ∈ nums) :
    sentKey u c ∈ sentCombinations facts userIds nums ↔ (u, c) ∈ facts := by
  constructor
  · intro h
    obtain ⟨f, hf, hkey⟩ := List.mem_map.1 h
    obtain ⟨h1, h2⟩ := sentKey_inj hkey
    have hfacts := (List.mem_filter.1 hf).1
    rwa [← h1, ← h2, ← Prod.mk.eta (p := f)]
  · intro h
    apply List.mem_map.2
    refine ⟨(u, c), List.mem_filter.2 ⟨h, ?_⟩, rfl⟩
    simp only [Bool.and_eq_true]
    exact ⟨(contains_iff_mem userIds u).2 hu, (contains_iff_mem nums c).2 hc⟩

-- =================================================================
-- Claim C2
-- =================================================================

/-- C2: the bulk delivery-dedup check of the optimized scheduled run (one
query over the cross set, collected into `userId:conclusionNumber` keys,
then filtering each record's subscriber list) selects exactly the same
recipient subset as the earlier revision's naive per-pair single-row
lookup: for every subscriber list and every record whose conclusion number
entered the bulk query, a user is in the subset iff no delivery fact for
`(userId, conclusionNumber)` exists. -/
theorem c2_bulk_dedup_matches_naive (facts : List (Nat × String))
    (userIds : List Nat) (nums : List String) (c : String) (hc : c ∈ nums) :
    usersToSend userIds (sentCombinations facts userIds nums) c =
      userIds.filter (fun u => !alreadySentNaive facts u c) := by
  unfold usersToSend
  apply List.filter_congr
  intro u hu
  congr 1
  rw [Bool.eq_iff_iff, contains_iff_mem,
    mem_sentCombinations_iff facts userIds nums u c hu hc]
  unfold alreadySentNaive
  rw [List.find?_isSome]
  constructor
  · intro h
    exact ⟨(u, c), h, by simp⟩
  · rintro ⟨f, hf, hp⟩
    simp only [Bool.and_eq_true, beq_iff_eq] at hp
    rwa [← hp.1, ← hp.2, ← Prod.mk.eta (p := f)]

/-- Witness for C2 at a concrete store, subscriber list and record. -/
theorem c2_bulk_dedup_matches_naive_witness :
    "A-1" ∈ ["A-1", "B-2"] ∧
    usersToSend [1, 2, 3]
        (sentCombinations [(1, "A-1"), (2, "B-2")] [1, 2, 3] ["A-1", "B-2"])
        "A-1" =
      [1, 2, 3].filter (fun u => !alreadySentNaive [(1, "A-1"), (2, "B-2")] u "A-1") :=
  ⟨by decide,
   c2_bulk_dedup_matches_naive [(1, "A-1"), (2, "B-2")] [1, 2, 3]
     ["A-1", "B-2"] "A-1" (by decide)⟩

-- =================================================================
-- Concrete fixtures used by witnesses and counterexamples
-- =================================================================

/-- A well-formed relevant registry record. -/
def demoRecord : EgrzRecord :=
  ⟨"N-1", "Положительное", "", "ООО Ромашка", "", "01.01.2024"⟩

/-- A record whose developer-info field is a case/whitespace variant of the
«не требуется» sentinel. -/
def demoSkipRecord : EgrzRecord :=
  ⟨"N-2", "Положительное", "", "  НЕ ТРЕБУЕТСЯ ", "", "01.01.2024"⟩

/-- A record whose conclusion number is whitespace-only. -/
def demoBlankRecord : EgrzRecord :=
  ⟨" ", "Положительное", "", "ООО Ромашка", "", "01.01.2024"⟩

/-- A record whose conclusion number is empty. -/
def demoEmptyRecord : EgrzRecord :=
  ⟨"", "Положительное", "", "ООО Ромашка", "", "01.01.2024"⟩

/-- A world where the AI key is absent (enrichment falls back), every send
succeeds and every region's first fetch returns the demo record. -/
def demoEnvOk : Env :=
  { apiKeyPresent := false
    aiOutcome := fun _ _ => AIOutcome.errOther
    sendOk := fun _ _ => SendOutcome.success
    sendFinalOk := fun _ _ => true
    fetch := fun _ _ => FetchOutcome.ok [demoRecord] }

/-- Same world, but the only subscriber has blocked the bot. -/
def demoEnvBlocked : Env :=
  { demoEnvOk with sendOk := fun _ _ => SendOutcome.blocked }

/-- The empty store. -/
def emptyDB : DB := ⟨[], []⟩

-- =================================================================
-- Claim C4
-- =================================================================

/-- C4: a record whose developer-info field, after trimming and
lowercasing, equals «не требуется» is skipped entirely by both the
scheduled per-record processing and the immediate-parse record loop: the
store is untouched (no cache write, no delivery fact), no send is
attempted, and the record is counted as skipped, not as an error. -/
theorem c4_not_required_skipped (env : Env) (r : EgrzRecord) (region : String)
    (userIds : List Nat) (sc : List String) (db : DB) (res : ProcessingResult)
    (userId : Nat) (sn : List String) (s k : Nat)
    (h : jsToLower (jsTrim r.developerInfo) = "не требуется") :
    processIndividualRecord env r region userIds sc db res =
      (db, { res with skippedRecords := res.skippedRecords + 1 }, Trace.nil) ∧
    immediateStep env region userId sn r db s k = (db, s, k + 1, Trace.nil) := by
  constructor
  · unfold processIndividualRecord
    by_cases h1 : (jsTrim r.conclusionNumber == "") = true
    · simp [h1]
    · simp [h1, h]
  · unfold immediateStep
    by_cases h1 : (r.conclusionNumber == "") = true
    · simp [h1]
    · simp [h1, h]

/-- Witness for C4 on a concrete «  НЕ ТРЕБУЕТСЯ » record. -/
theorem c4_not_required_skipped_witness :
    jsToLower (jsTrim demoSkipRecord.developerInfo) = "не требуется" ∧
    processIndividualRecord demoEnvOk demoSkipRecord "Вологодская - 35" [7]
        [] emptyDB ⟨"Вологодская - 35", 1, 0, 0, 0⟩ =
      (emptyDB, ⟨"Вологодская - 35", 1, 0, 1, 0⟩, Trace.nil) ∧
    immediateStep demoEnvOk "Вологодская - 35" 7 [] demoSkipRecord emptyDB 0 0 =
      (emptyDB, 0, 1, Trace.nil) :=
  ⟨by decide,
   (c4_not_required_skipped demoEnvOk demoSkipRecord "Вологодская - 35" [7]
     [] emptyDB ⟨"Вологодская - 35", 1, 0, 0, 0⟩ 7 [] 0 0 (by decide)).1,
   (c4_not_required_skipped demoEnvOk demoSkipRecord "Вологодская - 35" [7]
     [] emptyDB ⟨"Вологодская - 35", 1, 0, 0, 0⟩ 7 [] 0 0 (by decide)).2⟩

-- =================================================================
-- Claim C10
-- =================================================================

/-- C10 as stated is false: the scheduled per-record processing skips
whitespace-only conclusion numbers, but the immediate-parse loop tests
only for a falsy (empty) value, so a record whose conclusion number is a
single space proceeds to enrichment and a send attempt there. At this
concrete input the immediate loop attempts the send of the record keyed
`" "` to user 7 instead of skipping it. -/
theorem c10_counterexample :
    jsTrim demoBlankRecord.conclusionNumber = "" ∧
    (immediateStep demoEnvOk "Вологодская - 35" 7 [] demoBlankRecord emptyDB
        0 0).2.2.2.sends = [(7, " ")] := by
  constructor
  · decide
  · decide

/-- C10 amended: a record whose conclusion number is missing, empty or
whitespace-only is skipped by the scheduled per-record processing before
any other step (no enrichment, no cache write, no send attempt, counted as
skipped); in the immediate-parse loop the same holds only for a missing or
empty conclusion number (the loop does not trim before testing). -/
theorem c10_blank_number_skipped (env : Env) (r r2 : EgrzRecord)
    (region : String) (userIds : List Nat) (sc : List String) (db : DB)
    (res : ProcessingResult) (userId : Nat) (sn : List String) (s k : Nat)
    (h1 : jsTrim r.conclusionNumber = "")
    (h2 : r2.conclusionNumber = "") :
    processIndividualRecord env r region userIds sc db res =
      (db, { res with skippedRecords := res.skippedRecords + 1 }, Trace.nil) ∧
    immediateStep env region userId sn r2 db s k = (db, s, k + 1, Trace.nil) := by
  constructor
  · unfold processIndividualRecord
    simp [h1]
  · unfold immediateStep
    simp [h2]

/-- Witness for the amended C10 on concrete whitespace-only and empty
conclusion numbers. -/
theorem c10_blank_number_skipped_witness :
    jsTrim demoBlankRecord.conclusionNumber = "" ∧
    demoEmptyRecord.conclusionNumber = "" ∧
    processIndividualRecord demoEnvOk demoBlankRecord "Вологодская - 35" [7]
        [] emptyDB ⟨"Вологодская - 35", 1, 0, 0, 0⟩ =
      (emptyDB, ⟨"Вологодская - 35", 1, 0, 1, 0⟩, Trace.nil) ∧
    immediateStep demoEnvOk "Вологодская - 35" 7 [] demoEmptyRecord emptyDB 0 0 =
      (emptyDB, 0, 1, Trace.nil) :=
  ⟨by decide, by decide,
   (c10_blank_number_skipped demoEnvOk demoBlankRecord demoEmptyRecord
     "Вологодская - 35" [7] [] emptyDB ⟨"Вологодская - 35", 1, 0, 0, 0⟩ 7 [] 0 0
     (by decide) (by decide)).1,
   (c10_blank_number_skipped demoEnvOk demoBlankRecord demoEmptyRecord
     "Вологодская - 35" [7] [] emptyDB ⟨"Вологодская - 35", 1, 0, 0, 0⟩ 7 [] 0 0
     (by decide) (by decide)).2⟩

-- =================================================================
-- Claim C5
-- =================================================================

theorem sendMessageToUsers_spec (env : Env) (uids : List Nat)
    (messageText num : String) (db : DB) (res : ProcessingResult) :
    (sendMessageToUsers env uids messageText num db res).2.2
        = uids.map (fun u => (u, num)) ∧
    (sendMessageToUsers env uids messageText num db res).1.processedLeads
        = db.processedLeads ∧
    ∀ u n, ((u, n) ∈ (sendMessageToUsers env uids messageText num db res).1.parsedData ↔
      ((u, n) ∈ db.parsedData ∨
        (u ∈ uids ∧ n = num ∧ env.sendOk u num = SendOutcome.success))) := by
  induction uids generalizing db res with
  | nil => simp [sendMessageToUsers]
  | cons a rest ih =>
    simp only [sendMessageToUsers]
    cases hs : env.sendOk a num with
    | success =>
      obtain ⟨ih1, ih2, ih3⟩ :=
        ih { db with parsedData := db.parsedData ++ [(a, num)] } res
      refine ⟨by simp [ih1], by simpa using ih2, ?_⟩
      intro u n
      rw [ih3 u n]
      simp only [List.mem_append, List.mem_singleton, List.mem_cons,
        Prod.mk.injEq, List.not_mem_nil, or_false]
      constructor
      · rintro ((h | ⟨hu, hn⟩) | ⟨hu, hn, hok⟩)
        · exact Or.inl h
        · exact Or.inr ⟨Or.inl hu, hn, by rw [hu]; exact hs⟩
        · exact Or.inr ⟨Or.inr hu, hn, hok⟩
      · rintro (h | ⟨hu | hu, hn, hok⟩)
        · exact Or.inl (Or.inl h)
        · exact Or.inl (Or.inr ⟨hu, hn⟩)
        · exact Or.inr ⟨hu, hn, hok⟩
    | blocked =>
      obtain ⟨ih1, ih2, ih3⟩ := ih db res
      refine ⟨by simp [ih1], by simpa using ih2, ?_⟩
      intro u n
      rw [ih3 u n]
      simp only [List.mem_cons]
      constructor
      · rintro (h | ⟨hu, hn, hok⟩)
        · exact Or.inl h
        · exact Or.inr ⟨Or.inr hu, hn, hok⟩
      · rintro (h | ⟨hu | hu, hn, hok⟩)
        · exact Or.inl h
        · exact absurd hok (by rw [hu, hs]; simp)
        · exact Or.inr ⟨hu, hn, hok⟩
    | chatNotFound =>
      obtain ⟨ih1, ih2, ih3⟩ := ih db res
      refine ⟨by simp [ih1], by simpa using ih2, ?_⟩
      intro u n
      rw [ih3 u n]
      simp only [List.mem_cons]
      constructor
      · rintro (h | ⟨hu, hn, hok⟩)
        · exact Or.inl h
        · exact Or.inr ⟨Or.inr hu, hn, hok⟩
      · rintro (h | ⟨hu | hu, hn, hok⟩)
        · exact Or.inl h
        · exact absurd hok (by rw [hu, hs]; simp)
        · exact Or.inr ⟨hu, hn, hok⟩
    | otherErr =>
      obtain ⟨ih1, ih2, ih3⟩ :=
        ih db { res with errorRecords := res.errorRecords + 1 }
      refine ⟨by simp [ih1], by simpa using ih2, ?_⟩
      intro u n
      rw [ih3 u n]
      simp only [List.mem_cons]
      constructor
      · rintro (h | ⟨hu, hn, hok⟩)
        · exact Or.inl h
        · exact Or.inr ⟨Or.inr hu, hn, hok⟩
      · rintro (h | ⟨hu | hu, hn, hok⟩)
        · exact Or.inl h
        · exact absurd hok (by rw [hu, hs]; simp)
        · exact Or.inr ⟨hu, hn, hok⟩

/-- C5: during a batch send, a delivery fact for `(userId, conclusionNumber)`
is recorded iff the send to that user succeeded: a failed send (blocked
bot, missing chat, any other error) is absorbed without recording a fact,
and every listed recipient is still attempted regardless of earlier
failures; the cache is untouched. -/
theorem c5_delivery_fact_iff_successful_send (env : Env) (uids : List Nat)
    (messageText num : String) (db : DB) (res : ProcessingResult) :
    (sendMessageToUsers env uids messageText num db res).2.2
        = uids.map (fun u => (u, num)) ∧
    (sendMessageToUsers env uids messageText num db res).1.processedLeads
        = db.processedLeads ∧
    ∀ u n, ((u, n) ∈ (sendMessageToUsers env uids messageText num db res).1.parsedData ↔
      ((u, n) ∈ db.parsedData ∨
        (u ∈ uids ∧ n = num ∧ env.sendOk u num = SendOutcome.success))) :=
  sendMessageToUsers_spec env uids messageText num db res

-- =================================================================
-- Claim C6
-- =================================================================

theorem addUserToRegion_nodup (m : List (String × List Nat)) (region : String)
    (u : Nat) (hm : ∀ p ∈ m, p.2.Nodup) :
    ∀ p ∈ addUserToRegion m region u, p.2.Nodup := by
  induction m with
  | nil =>
    intro p hp
    simp only [addUserToRegion, List.mem_singleton] at hp
    subst hp
    exact List.nodup_singleton u
  | cons hd tl ih =>
    obtain ⟨r, us⟩ := hd
    intro p hp
    by_cases hr : (r == region) = true
    · rw [addUserToRegion, if_pos hr, List.mem_cons] at hp
      rcases hp with hp | hp
      · subst hp
        show (if us.contains u then us else us ++ [u]).Nodup
        have hnodup : us.Nodup := hm (r, us) (List.mem_cons_self _ _)
        by_cases hc : us.contains u = true
        · rw [if_pos hc]; exact hnodup
        · rw [if_neg hc, List.nodup_append]
          have hnotmem : u ∉ us := fun hmem => hc ((contains_iff_mem us u).2 hmem)
          refine ⟨hnodup, List.nodup_singleton u, fun a ha hb => ?_⟩
          rw [List.mem_singleton] at hb
          exact hnotmem (hb ▸ ha)
      · exact hm p (List.mem_cons_of_mem _ hp)
    · rw [addUserToRegion, if_neg hr, List.mem_cons] at hp
      rcases hp with hp | hp
      · subst hp
        exact hm (r, us) (List.mem_cons_self _ _)
      · exact ih (fun q hq => hm q (List.mem_cons_of_mem _ hq)) p hp

theorem foldl_addUser_nodup (regions : List String) (uid : Nat) :
    ∀ m, (∀ p ∈ m, p.2.Nodup) →
      ∀ p ∈ regions.foldl (fun m' region => addUserToRegion m' region uid) m,
        p.2.Nodup := by
  induction regions with
  | nil => intro m hm p hp; exact hm p hp
  | cons r rest ih =>
    intro m hm p hp
    exact ih (addUserToRegion m r uid) (addUserToRegion_nodup m r uid hm) p hp

/-- C6: for every collection of persisted user configurations, the derived
region → subscribers map contains no duplicate userId in any region's
subscriber list, even when a single user's stored region list repeats a
region; the per-region `Set<number>` deduplicates on insertion. -/
theorem c6_no_duplicate_subscribers
    (configs : List (Nat × Option (List String))) :
    ∀ p ∈ collectRegionUserMaps configs, p.2.Nodup := by
  unfold collectRegionUserMaps
  suffices h : ∀ (cs : List (Nat × Option (List String)))
      (m : List (String × List Nat)), (∀ p ∈ m, p.2.Nodup) →
      ∀ p ∈ cs.foldl
        (fun m cfg =>
          match cfg.2 with
          | none => m
          | some regions =>
            if regions.isEmpty then m
            else regions.foldl (fun m' region => addUserToRegion m' region cfg.1) m)
        m, p.2.Nodup by
    exact h configs [] (by simp)
  intro cs
  induction cs with
  | nil => intro m hm p hp; exact hm p hp
  | cons cfg rest ih =>
    intro m hm p hp
    rw [List.foldl_cons] at hp
    refine ih _ ?_ p hp
    cases hcfg : cfg.2 with
    | none => simpa [hcfg] using hm
    | some regions =>
      by_cases he : regions.isEmpty = true
      · simpa [hcfg, he] using hm
      · simp only [hcfg, he, if_false, Bool.false_eq_true]
        exact foldl_addUser_nodup regions cfg.1 m hm

/-- Witness for C6: a user subscribed twice to the same region appears
once in that region's subscriber list. -/
theorem c6_no_duplicate_subscribers_witness :
    ("Вологодская - 35", [7]) ∈
      collectRegionUserMaps
        [(7, some ["Вологодская - 35", "Вологодская - 35"])] ∧
    ([7] : List Nat).Nodup :=
  ⟨by decide,
   c6_no_duplicate_subscribers
     [(7, some ["Вологодская - 35", "Вологодская - 35"])]
     ("Вологодская - 35", [7]) (by decide)⟩

-- =================================================================
-- Claim C7
-- =================================================================

/-- C7: when the timer fires while a previous run is still marked running,
the firing is a no-op (store untouched, empty trace, only the skip warning
logged, lock state unchanged) as long as the elapsed time does not exceed
the 30-minute maximum; once the elapsed time exceeds the maximum, the
critical condition is logged, the lock is taken over (cleared and re-taken
for the new run) and the new run executes the main task. -/
theorem c7_run_lock_and_stale_override (env : Env) (st : LockState)
    (now : Nat) (maps : List RegionUserMap) (db : DB)
    (h : st.running = true) :
    (now - st.startTime ≤ SCHEDULER_CONFIG.MAX_EXECUTION_TIME →
      cronFire env st now maps db = (st, db, Trace.nil, [LogKind.skipWarn])) ∧
    (now - st.startTime > SCHEDULER_CONFIG.MAX_EXECUTION_TIME →
      cronFire env st now maps db =
        (⟨false, now⟩, (executeMainTask env maps db).1,
          (executeMainTask env maps db).2.2, [LogKind.critical])) := by
  constructor
  · intro hle
    rw [cronFire, if_pos h, if_neg (by omega)]
  · intro hgt
    rw [cronFire, if_pos h, if_pos hgt]

/-- Witness for C7: a firing 100 ms into a running task is skipped, a
firing 31 minutes in force-clears the lock and runs. -/
theorem c7_run_lock_and_stale_override_witness :
    (LockState.mk true 0).running = true ∧
    cronFire demoEnvOk ⟨true, 0⟩ 100 [] emptyDB =
      (⟨true, 0⟩, emptyDB, Trace.nil, [LogKind.skipWarn]) ∧
    cronFire demoEnvOk ⟨true, 0⟩ (31 * 60 * 1000) [] emptyDB =
      (⟨false, 31 * 60 * 1000⟩, (executeMainTask demoEnvOk [] emptyDB).1,
        (executeMainTask demoEnvOk [] emptyDB).2.2, [LogKind.critical]) :=
  ⟨rfl,
   (c7_run_lock_and_stale_override demoEnvOk ⟨true, 0⟩ 100 [] emptyDB rfl).1
     (by decide),
   (c7_run_lock_and_stale_override demoEnvOk ⟨true, 0⟩ (31 * 60 * 1000) []
     emptyDB rfl).2 (by decide)⟩

-- =================================================================
-- Claim C9
-- =================================================================

/-- A world identical to the demo world except that no terminal message
can be delivered to the requesting user (for example the requester has
blocked the bot). -/
def demoEnvFinalBlocked : Env :=
  { demoEnvOk with sendFinalOk := fun _ _ => false }

/-- C9 as stated is false: when the terminal send to the requesting user
itself fails, the catch clause issues the error message as a second
terminal attempt — at this concrete input the invocation issues two
terminal messages, not exactly one, and a requester who has blocked the
bot receives neither, so the user can be left without a final response. -/
theorem c9_counterexample :
    (triggerImmediateParse demoEnvFinalBlocked "Вологодская - 35" 7
      emptyDB).2.2.length = 2 := by
  decide

/-- C9 amended: provided terminal sends to the requesting user are
deliverable, every invocation of the immediate-parse trigger issues
exactly one terminal human-readable message to that user — the summary on
success, the no-data text on an empty snapshot, and the error text when
processing raised — so the user is never left without a final response. -/
theorem c9_immediate_parse_always_concludes (env : Env) (region : String)
    (userId : Nat) (db : DB)
    (hterm : ∀ t, env.sendFinalOk userId t = true) :
    (triggerImmediateParse env region userId db).2.2.length = 1 := by
  unfold triggerImmediateParse
  cases (fetchEgrzDataWithRetry (env.fetch region)).1 with
  | error e => rfl
  | ok records =>
    by_cases hr : records.isEmpty = true
    · simp [hr, hterm]
    · simp [hr, hterm]

/-- Witness for C9 at a concrete environment and store. -/
theorem c9_immediate_parse_always_concludes_witness :
    (∀ t, demoEnvOk.sendFinalOk 7 t = true) ∧
    (triggerImmediateParse demoEnvOk "Вологодская - 35" 7 emptyDB).2.2.length = 1 :=
  ⟨fun _ => rfl,
   c9_immediate_parse_always_concludes demoEnvOk "Вологодская - 35" 7 emptyDB
     (fun _ => rfl)⟩

-- =================================================================
-- Claim C3
-- =================================================================

theorem validateAIResponse_includes_city {t : String}
    (h : validateAIResponse t = true) : includesSub t "🏙️" = true := by
  unfold validateAIResponse at h
  simp only [Bool.and_eq_true, List.all_eq_true] at h
  exact h.1.2 "🏙️" (by decide)

/-- A record whose developer-info field itself contains the 🏠 marker. -/
def demoEmojiRecord : EgrzRecord :=
  ⟨"123", "Положительное", "", "🏠", "", "01.01.2024"⟩

/-- C3 as stated is false: the cache guard only tests for the 🏙️/🏠
markers, so when the enrichment falls back and the record's own
developer-info field contains 🏠, the deterministic fallback text is
cached even though it fails the quality validation. At this concrete
input the fallback is written to the cache and `validateAIResponse`
rejects it. -/
theorem c3_counterexample :
    (getOrCreateProcessedMessage demoEnvOk emptyDB demoEmojiRecord
        "Вологодская - 35" "123").2.2 =
      [("123", fallbackText demoEmojiRecord "Вологодская - 35"
        (formatDate demoEmojiRecord.conclusionDate))] ∧
    validateAIResponse (fallbackText demoEmojiRecord "Вологодская - 35"
        (formatDate demoEmojiRecord.conclusionDate)) = false := by
  exact ⟨by decide, by decide⟩

/-- C3 amended: provided the record's interpolated fallback text does not
itself contain the 🏙️ or 🏠 marker, every notification text newly written
to the lead cache passed the full quality validation (length ≥ 50, the
«Номер заключения экспертизы:» label, all three emoji markers, no
denylisted phrase in the lowercased text) — in particular the fallback is
never cached — and a result that fails validation is returned to the
caller with the store unchanged. -/
theorem c3_cache_stores_only_validated (env : Env) (db : DB)
    (r : EgrzRecord) (region num : String)
    (hfb1 : includesSub (fallbackText r region (formatDate r.conclusionDate))
      "🏙️" = false)
    (hfb2 : includesSub (fallbackText r region (formatDate r.conclusionDate))
      "🏠" = false) :
    (∀ p ∈ (getOrCreateProcessedMessage env db r region num).2.2,
        validateAIResponse p.2 = true) ∧
    (validateAIResponse (getOrCreateProcessedMessage env db r region num).1
        = false →
      (getOrCreateProcessedMessage env db r region num).2.1 = db) := by
  unfold getOrCreateProcessedMessage
  cases hc : cacheLookup db num with
  | some msg =>
    simp only [hc]
    exact ⟨by simp, by simp⟩
  | none =>
    simp only [hc]
    rcases processLeadWithAI_cases env r region with hai | hai
    · have hguard : (processLeadWithAI env r region != "" &&
          (includesSub (processLeadWithAI env r region) "🏙️" ||
           includesSub (processLeadWithAI env r region) "🏠")) = false := by
        rw [hai, hfb1, hfb2]
        simp
      simp only [hguard, Bool.false_eq_true, if_false]
      exact ⟨by simp, by simp⟩
    · have hne : (processLeadWithAI env r region != "") = true := by
        rw [bne_iff_ne]
        exact validateAIResponse_ne_empty hai
      have hcity := validateAIResponse_includes_city hai
      have hguard : (processLeadWithAI env r region != "" &&
          (includesSub (processLeadWithAI env r region) "🏙️" ||
           includesSub (processLeadWithAI env r region) "🏠")) = true := by
        rw [hne, hcity]
        simp
      simp only [hguard, if_true]
      constructor
      · intro p hp
        simp only [List.mem_singleton] at hp
        rw [hp]
        exact hai
      · intro hv
        simp [hai] at hv

/-- Witness for the amended C3: a plain record's failed enrichment (no API
key, fallback text without markers) is returned with the cache untouched. -/
theorem c3_cache_stores_only_validated_witness :
    (getOrCreateProcessedMessage demoEnvOk emptyDB demoRecord
        "Вологодская - 35" "N-1").2.1 = emptyDB :=
  (c3_cache_stores_only_validated demoEnvOk emptyDB demoRecord
      "Вологодская - 35" "N-1" (by decide) (by decide)).2 (by decide)

-- =================================================================
-- Claim C8
-- =================================================================

theorem executeMainTask_results_length (env : Env) :
    ∀ (maps : List RegionUserMap) (db : DB),
      (executeMainTask env maps db).2.1.length = maps.length := by
  intro maps
  induction maps with
  | nil => intro db; rfl
  | cons m rest ih =>
    intro db
    simp only [executeMainTask, List.length_cons]
    rw [ih]

/-- C8: the registry fetch retries transient network errors with a
5-second delay between the at most three attempts (a failure on attempt 1
followed by a success on attempt 2 yields the records after one delay);
when all three attempts fail with network errors the error is raised after
two delays, the region's step yields the untouched store and a statistics
row counting one errored record for that region, and the main task still
produces one statistics row per region, so the run continues with the
remaining regions. -/
theorem c8_fetch_retry_and_region_isolation (env : Env) (m : RegionUserMap)
    (maps : List RegionUserMap) (db : DB) (oracle : Nat → FetchOutcome)
    (rs : List EgrzRecord)
    (hAll : ∀ a, 1 ≤ a → a ≤ 3 → env.fetch m.region a = FetchOutcome.netErr)
    (h1 : oracle 1 = FetchOutcome.netErr) (h2 : oracle 2 = FetchOutcome.ok rs) :
    fetchEgrzDataWithRetry oracle =
        (Except.ok rs, [SCHEDULER_CONFIG.RETRY_DELAY]) ∧
    fetchEgrzDataWithRetry (env.fetch m.region) =
        (Except.error (),
         [SCHEDULER_CONFIG.RETRY_DELAY, SCHEDULER_CONFIG.RETRY_DELAY]) ∧
    regionStep env m db = (db, ⟨m.region, 0, 0, 0, 1⟩, Trace.nil) ∧
    (executeMainTask env maps db).2.1.length = maps.length := by
  have hfetch : fetchEgrzDataWithRetry (env.fetch m.region) =
      (Except.error (),
       [SCHEDULER_CONFIG.RETRY_DELAY, SCHEDULER_CONFIG.RETRY_DELAY]) := by
    show fetchRetryAux (env.fetch m.region) 1 SCHEDULER_CONFIG.MAX_RETRIES = _
    rw [show SCHEDULER_CONFIG.MAX_RETRIES = 3 from rfl]
    rw [fetchRetryAux, hAll 1 (by omega) (by omega)]
    rw [fetchRetryAux, hAll 2 (by omega) (by omega)]
    rw [fetchRetryAux, hAll 3 (by omega) (by omega)]
    rfl
  refine ⟨?_, hfetch, ?_, executeMainTask_results_length env maps db⟩
  · show fetchRetryAux oracle 1 SCHEDULER_CONFIG.MAX_RETRIES = _
    rw [show SCHEDULER_CONFIG.MAX_RETRIES = 3 from rfl]
    rw [fetchRetryAux, h1, fetchRetryAux, h2]
    rfl
  · unfold regionStep processRegion
    rw [hfetch]

/-- Witness for C8 at a concrete all-failing region and a concrete
once-failing fetch oracle. -/
theorem c8_fetch_retry_and_region_isolation_witness :
    (∀ a, 1 ≤ a → a ≤ 3 →
      (fun (_ : String) (_ : Nat) => FetchOutcome.netErr) "78" a
        = FetchOutcome.netErr) ∧
    fetchEgrzDataWithRetry
        (fun a => if a = 2 then FetchOutcome.ok [] else FetchOutcome.netErr) =
      (Except.ok [], [SCHEDULER_CONFIG.RETRY_DELAY]) ∧
    fetchEgrzDataWithRetry
        ((fun (_ : String) (_ : Nat) => FetchOutcome.netErr) "78") =
      (Except.error (),
       [SCHEDULER_CONFIG.RETRY_DELAY, SCHEDULER_CONFIG.RETRY_DELAY]) ∧
    regionStep { demoEnvOk with fetch := fun _ _ => FetchOutcome.netErr }
        ⟨"78", [7]⟩ emptyDB = (emptyDB, ⟨"78", 0, 0, 0, 1⟩, Trace.nil) ∧
    (executeMainTask { demoEnvOk with fetch := fun _ _ => FetchOutcome.netErr }
        [⟨"78", [7]⟩, ⟨"35", [8]⟩] emptyDB).2.1.length = 2 := by
  have h := c8_fetch_retry_and_region_isolation
    { demoEnvOk with fetch := fun _ _ => FetchOutcome.netErr } ⟨"78", [7]⟩
    [⟨"78", [7]⟩, ⟨"35", [8]⟩] emptyDB
    (fun a => if a = 2 then FetchOutcome.ok [] else FetchOutcome.netErr) []
    (fun _ _ _ => rfl) (by decide) (by decide)
  exact ⟨fun _ _ _ => rfl, h.1, h.2.1, h.2.2.1, h.2.2.2⟩

-- =================================================================
-- Claim C1: store evolution infrastructure
-- =================================================================

/-- Evolution order between store states: delivery facts are only ever
added, and an existing cache entry keeps its value (`findOne` returns the
first row and rows are only appended). -/
def DB.evolves (db dbNew : DB) : Prop :=
  (∀ x ∈ db.parsedData, x ∈ dbNew.parsedData) ∧
  (∀ num msg, cacheLookup db num = some msg → cacheLookup dbNew num = some msg)

theorem DB.evolves_refl (db : DB) : DB.evolves db db :=
  ⟨fun _ hx => hx, fun _ _ h => h⟩

theorem DB.evolves_trans {a b c : DB} (h1 : DB.evolves a b)
    (h2 : DB.evolves b c) : DB.evolves a c :=
  ⟨fun x hx => h2.1 x (h1.1 x hx), fun n m h => h2.2 n m (h1.2 n m h)⟩

theorem cacheLookup_append (db : DB) (l : List (String × String))
    (num msg : String) (h : cacheLookup db num = some msg) :
    cacheLookup ⟨db.parsedData, db.processedLeads ++ l⟩ num = some msg := by
  unfold cacheLookup at h ⊢
  obtain ⟨p, hp, hpm⟩ := Option.map_eq_some'.1 h
  rw [List.find?_append, hp]
  simp [hpm]

theorem getOrCreate_hit (env : Env) (db : DB) (r : EgrzRecord)
    (region num msg : String) (h : cacheLookup db num = some msg) :
    getOrCreateProcessedMessage env db r region num = (msg, db, []) := by
  unfold getOrCreateProcessedMessage
  rw [h]

theorem getOrCreate_miss (env : Env) (db : DB) (r : EgrzRecord)
    (region num : String) (h : cacheLookup db num = none) :
    getOrCreateProcessedMessage env db r region num =
      (if processLeadWithAI env r region != "" &&
          (includesSub (processLeadWithAI env r region) "🏙️" ||
           includesSub (processLeadWithAI env r region) "🏠") then
        (processLeadWithAI env r region,
         { db with processedLeads :=
            db.processedLeads ++ [(num, processLeadWithAI env r region)] },
         [(num, processLeadWithAI env r region)])
      else (processLeadWithAI env r region, db, [])) := by
  unfold getOrCreateProcessedMessage
  rw [h]

theorem getOrCreate_fst (env : Env) (db : DB) (r : EgrzRecord)
    (region num : String) (h : cacheLookup db num = none) :
    (getOrCreateProcessedMessage env db r region num).1 =
      processLeadWithAI env r region := by
  rw [getOrCreate_miss env db r region num h]
  split <;> rfl

theorem getOrCreate_parsedData (env : Env) (db : DB) (r : EgrzRecord)
    (region num : String) :
    (getOrCreateProcessedMessage env db r region num).2.1.parsedData
      = db.parsedData := by
  cases hc : cacheLookup db num with
  | some msg => rw [getOrCreate_hit env db r region num msg hc]
  | none =>
    rw [getOrCreate_miss env db r region num hc]
    split <;> rfl

theorem getOrCreate_evolves (env : Env) (db : DB) (r : EgrzRecord)
    (region num : String) :
    DB.evolves db (getOrCreateProcessedMessage env db r region num).2.1 := by
  cases hc : cacheLookup db num with
  | some msg =>
    rw [getOrCreate_hit env db r region num msg hc]
    exact DB.evolves_refl db
  | none =>
    rw [getOrCreate_miss env db r region num hc]
    split
    · exact ⟨fun x hx => hx, fun n m h => cacheLookup_append db _ n m h⟩
    · exact DB.evolves_refl db

theorem getOrCreate_empty (env : Env) (db : DB) (r : EgrzRecord)
    (region num : String)
    (h : (getOrCreateProcessedMessage env db r region num).1 = "") :
    (getOrCreateProcessedMessage env db r region num).2.1 = db ∧
    cacheLookup db num = some "" := by
  cases hc : cacheLookup db num with
  | some msg =>
    rw [getOrCreate_hit env db r region num msg hc] at h ⊢
    exact ⟨rfl, congrArg some h⟩
  | none =>
    exfalso
    rw [getOrCreate_fst env db r region num hc] at h
    exact processLeadWithAI_ne_empty env r region h

theorem sendMessageToUsers_evolves (env : Env) (uids : List Nat)
    (messageText num : String) (db : DB) (res : ProcessingResult) :
    DB.evolves db (sendMessageToUsers env uids messageText num db res).1 := by
  obtain ⟨_, hpl, hmem⟩ := sendMessageToUsers_spec env uids messageText num db res
  refine ⟨fun x hx => ?_, fun n m h => ?_⟩
  · have := (hmem x.1 x.2).2 (Or.inl (by rwa [Prod.mk.eta]))
    rwa [Prod.mk.eta] at this
  · unfold cacheLookup at h ⊢
    rw [hpl]
    exact h

theorem sendMessageToUsers_complete (env : Env) (uids : List Nat)
    (messageText num : String) (db : DB) (res : ProcessingResult)
    (hsend : ∀ u ∈ uids, env.sendOk u num = SendOutcome.success) :
    ∀ u ∈ uids,
      (u, num) ∈ (sendMessageToUsers env uids messageText num db res).1.parsedData :=
  fun u hu =>
    ((sendMessageToUsers_spec env uids messageText num db res).2.2 u num).2
      (Or.inr ⟨hu, rfl, hsend u hu⟩)

-- =================================================================
-- Claim C1: relevance, completion predicate
-- =================================================================

/-- A record that passes both skip guards of `processIndividualRecord`. -/
def relevantRecord (r : EgrzRecord) : Bool :=
  !(jsTrim r.conclusionNumber == "") &&
  !(jsToLower (jsTrim r.developerInfo) == "не требуется")

theorem relevantRecord_spec {r : EgrzRecord} (h : relevantRecord r = true) :
    (jsTrim r.conclusionNumber == "") = false ∧
    (jsToLower (jsTrim r.developerInfo) == "не требуется") = false := by
  unfold relevantRecord at h
  simp only [Bool.and_eq_true, Bool.not_eq_true'] at h
  exact h

theorem mem_relevantNums {records : List EgrzRecord} {r : EgrzRecord}
    (hr : r ∈ records) (hrel : relevantRecord r = true) :
    r.conclusionNumber ∈ relevantNums records := by
  obtain ⟨h1, _⟩ := relevantRecord_spec hrel
  unfold relevantNums
  refine List.mem_filter.2 ⟨List.mem_map.2 ⟨r, hr, rfl⟩, ?_⟩
  have hne : r.conclusionNumber ≠ "" := by
    intro he
    rw [he] at h1
    exact absurd h1 (by decide)
  have htrim : jsTrim r.conclusionNumber ≠ "" := by
    intro he
    rw [← beq_iff_eq (a := jsTrim r.conclusionNumber) (b := "")] at he
    rw [he] at h1
    cases h1
  simp only [Bool.and_eq_true, bne_iff_ne]
  exact ⟨hne, htrim⟩

/-- The per-record completion fact a finished run leaves behind: either
every subscriber has the delivery fact for this record, or the cache pins
the empty message for its conclusion number (so a later run skips the
record without sends or writes either way). -/
def recordDone (db : DB) (userIds : List Nat) (r : EgrzRecord) : Prop :=
  (∀ u ∈ userIds, (u, r.conclusionNumber) ∈ db.parsedData) ∨
  cacheLookup db r.conclusionNumber = some ""

theorem recordDone_mono {db dbNew : DB} (h : DB.evolves db dbNew)
    (userIds : List Nat) (r : EgrzRecord) :
    recordDone db userIds r → recordDone dbNew userIds r := by
  rintro (hf | hc)
  · exact Or.inl fun u hu => h.1 _ (hf u hu)
  · exact Or.inr (h.2 _ _ hc)

theorem sentCombinations_sound (facts : List (Nat × String))
    (userIds : List Nat) (nums : List String) (u : Nat) (c : String)
    (h : sentKey u c ∈ sentCombinations facts userIds nums) :
    (u, c) ∈ facts := by
  obtain ⟨f, hf, hkey⟩ := List.mem_map.1 h
  obtain ⟨h1, h2⟩ := sentKey_inj hkey
  have hfacts := (List.mem_filter.1 hf).1
  rwa [← h1, ← h2, ← Prod.mk.eta (p := f)]

-- =================================================================
-- Claim C1: what a run with successful sends leaves behind
-- =================================================================

theorem processIndividualRecord_evolves (env : Env) (r : EgrzRecord)
    (region : String) (userIds : List Nat) (sc : List String) (db : DB)
    (res : ProcessingResult) :
    DB.evolves db (processIndividualRecord env r region userIds sc db res).1 := by
  unfold processIndividualRecord
  cases h1 : (jsTrim r.conclusionNumber == "") with
  | true => simp only [if_true]; exact DB.evolves_refl db
  | false =>
    simp only [Bool.false_eq_true, if_false]
    cases h2 : (jsToLower (jsTrim r.developerInfo) == "не требуется") with
    | true => simp only [if_true]; exact DB.evolves_refl db
    | false =>
      simp only [Bool.false_eq_true, if_false]
      cases h3 : (usersToSend userIds sc r.conclusionNumber).isEmpty with
      | true => simp only [if_true]; exact DB.evolves_refl db
      | false =>
        simp only [Bool.false_eq_true, if_false]
        cases h4 : ((getOrCreateProcessedMessage env db r region
            r.conclusionNumber).1 == "") with
        | true =>
          simp only [if_true]
          exact getOrCreate_evolves env db r region r.conclusionNumber
        | false =>
          simp only [Bool.false_eq_true, if_false]
          exact DB.evolves_trans
            (getOrCreate_evolves env db r region r.conclusionNumber)
            (sendMessageToUsers_evolves env _ _ _ _ _)

theorem processIndividualRecord_establishes (env : Env) (r : EgrzRecord)
    (region : String) (userIds : List Nat) (sc : List String) (db : DB)
    (res : ProcessingResult)
    (hsend : ∀ u n, env.sendOk u n = SendOutcome.success)
    (hsc : ∀ u, sentKey u r.conclusionNumber ∈ sc →
      (u, r.conclusionNumber) ∈ db.parsedData)
    (hrel : relevantRecord r = true) :
    recordDone (processIndividualRecord env r region userIds sc db res).1
      userIds r := by
  obtain ⟨h1, h2⟩ := relevantRecord_spec hrel
  unfold processIndividualRecord
  simp only [h1, h2, Bool.false_eq_true, if_false]
  cases h3 : (usersToSend userIds sc r.conclusionNumber).isEmpty with
  | true =>
    simp only [if_true]
    left
    intro u hu
    apply hsc u
    have hnil := List.isEmpty_iff.1 h3
    unfold usersToSend at hnil
    have := List.filter_eq_nil_iff.1 hnil u hu
    simp only [Bool.not_eq_true', Bool.not_eq_false] at this
    exact (contains_iff_mem sc (sentKey u r.conclusionNumber)).1 this
  | false =>
    simp only [Bool.false_eq_true, if_false]
    cases h4 : ((getOrCreateProcessedMessage env db r region
        r.conclusionNumber).1 == "") with
    | true =>
      simp only [if_true]
      obtain ⟨hdb, hcache⟩ := getOrCreate_empty env db r region
        r.conclusionNumber (by rwa [beq_iff_eq] at h4)
      right
      rw [hdb]
      exact hcache
    | false =>
      simp only [Bool.false_eq_true, if_false]
      left
      intro u hu
      by_cases hu2 : u ∈ usersToSend userIds sc r.conclusionNumber
      · exact sendMessageToUsers_complete env _ _ _ _ _
          (fun u' _ => hsend u' r.conclusionNumber) u hu2
      · have hkey : sentKey u r.conclusionNumber ∈ sc := by
          by_contra hk
          apply hu2
          unfold usersToSend
          refine List.mem_filter.2 ⟨hu, ?_⟩
          simp only [Bool.not_eq_true', ← Bool.not_eq_true]
          intro hcont
          exact hk ((contains_iff_mem sc _).1 hcont)
        have hmem := hsc u hkey
        have hmem2 : (u, r.conclusionNumber) ∈
            (getOrCreateProcessedMessage env db r region
              r.conclusionNumber).2.1.parsedData := by
          rw [getOrCreate_parsedData]
          exact hmem
        exact (sendMessageToUsers_evolves env _ _ _ _ res).1 _ hmem2

theorem processIndividualRecord_noop (env : Env) (r : EgrzRecord)
    (region : String) (userIds : List Nat) (sc : List String) (db : DB)
    (res : ProcessingResult)
    (hdone : relevantRecord r = true →
      (∀ u ∈ userIds, sentKey u r.conclusionNumber ∈ sc) ∨
      cacheLookup db r.conclusionNumber = some "") :
    (processIndividualRecord env r region userIds sc db res).1 = db ∧
    (processIndividualRecord env r region userIds sc db res).2.2 = Trace.nil := by
  unfold processIndividualRecord
  cases h1 : (jsTrim r.conclusionNumber == "") with
  | true => simp only [if_true]; exact ⟨by trivial, by trivial⟩
  | false =>
    simp only [Bool.false_eq_true, if_false]
    cases h2 : (jsToLower (jsTrim r.developerInfo) == "не требуется") with
    | true => simp only [if_true]; exact ⟨by trivial, by trivial⟩
    | false =>
      simp only [Bool.false_eq_true, if_false]
      have hrel : relevantRecord r = true := by
        unfold relevantRecord
        rw [h1, h2]
        rfl
      cases h3 : (usersToSend userIds sc r.conclusionNumber).isEmpty with
      | true => simp only [if_true]; exact ⟨by trivial, by trivial⟩
      | false =>
        rcases hdone hrel with hkeys | hcache
        · exfalso
          have : usersToSend userIds sc r.conclusionNumber = [] := by
            unfold usersToSend
            apply List.filter_eq_nil_iff.2
            intro u hu
            simp only [Bool.not_eq_true', Bool.not_eq_false]
            exact (contains_iff_mem sc _).2 (hkeys u hu)
          rw [this] at h3
          cases h3
        · simp only [Bool.false_eq_true, if_false]
          have hhit := getOrCreate_hit env db r region r.conclusionNumber ""
            hcache
          rw [hhit]
          simp only [beq_self_eq_true, if_true]
          exact ⟨by trivial, by trivial⟩

theorem processRecordsList_noop (env : Env) (region : String)
    (userIds : List Nat) (sc : List String) (db : DB) :
    ∀ (records : List EgrzRecord) (res : ProcessingResult),
      (∀ r ∈ records, relevantRecord r = true →
        (∀ u ∈ userIds, sentKey u r.conclusionNumber ∈ sc) ∨
        cacheLookup db r.conclusionNumber = some "") →
      (processRecordsList env region userIds sc records db res).1 = db ∧
      (processRecordsList env region userIds sc records db res).2.2 = Trace.nil := by
  intro records
  induction records with
  | nil => intro res _; exact ⟨by trivial, by trivial⟩
  | cons r rest ih =>
    intro res hdone
    have hstep := processIndividualRecord_noop env r region userIds sc db res
      (hdone r (List.mem_cons_self _ _))
    simp only [processRecordsList]
    rw [hstep.1, hstep.2]
    obtain ⟨ih1, ih2⟩ := ih
      (processIndividualRecord env r region userIds sc db res).2.1
      (fun r' hr' => hdone r' (List.mem_cons_of_mem _ hr'))
    rw [ih1, ih2, Trace.nil_app]
    exact ⟨by trivial, by trivial⟩

theorem processRecordsList_establishes (env : Env) (region : String)
    (userIds : List Nat) (sc : List String)
    (hsend : ∀ u n, env.sendOk u n = SendOutcome.success) :
    ∀ (records : List EgrzRecord) (db : DB) (res : ProcessingResult),
      (∀ u num, sentKey u num ∈ sc → (u, num) ∈ db.parsedData) →
      DB.evolves db (processRecordsList env region userIds sc records db res).1 ∧
      ∀ r ∈ records, relevantRecord r = true →
        recordDone (processRecordsList env region userIds sc records db res).1
          userIds r := by
  intro records
  induction records with
  | nil =>
    intro db res _
    exact ⟨DB.evolves_refl db, by simp⟩
  | cons r rest ih =>
    intro db res hsc
    simp only [processRecordsList]
    have hstep_ev := processIndividualRecord_evolves env r region userIds sc db res
    have hsc2 : ∀ u num, sentKey u num ∈ sc →
        (u, num) ∈ (processIndividualRecord env r region userIds sc db res).1.parsedData :=
      fun u num hk => hstep_ev.1 _ (hsc u num hk)
    obtain ⟨ih_ev, ih_done⟩ := ih
      (processIndividualRecord env r region userIds sc db res).1
      (processIndividualRecord env r region userIds sc db res).2.1 hsc2
    refine ⟨DB.evolves_trans hstep_ev ih_ev, ?_⟩
    intro r2 hr2 hrel2
    rcases List.mem_cons.1 hr2 with he | hm
    · subst he
      exact recordDone_mono ih_ev userIds r2
        (processIndividualRecord_establishes env r2 region userIds sc db res
          hsend (fun u hk => hsc u r2.conclusionNumber hk) hrel2)
    · exact ih_done r2 hm hrel2

theorem regionStep_eq_error (env : Env) (m : RegionUserMap) (db : DB)
    (e : Unit)
    (hf : (fetchEgrzDataWithRetry (env.fetch m.region)).1 = Except.error e) :
    regionStep env m db = (db, ⟨m.region, 0, 0, 0, 1⟩, Trace.nil) := by
  unfold regionStep processRegion
  simp only [hf]

theorem regionStep_eq_empty (env : Env) (m : RegionUserMap) (db : DB)
    (records : List EgrzRecord)
    (hf : (fetchEgrzDataWithRetry (env.fetch m.region)).1 = Except.ok records)
    (he : records.isEmpty = true) :
    regionStep env m db =
      (db, ⟨m.region, records.length, 0, 0, 0⟩, Trace.nil) := by
  unfold regionStep processRegion
  simp only [hf, he, if_true]

theorem regionStep_eq_records (env : Env) (m : RegionUserMap) (db : DB)
    (records : List EgrzRecord)
    (hf : (fetchEgrzDataWithRetry (env.fetch m.region)).1 = Except.ok records)
    (he : records.isEmpty = false) :
    regionStep env m db =
      processRecordsOptimized env records m.region m.userIds db
        ⟨m.region, records.length, 0, 0, 0⟩ := by
  unfold regionStep processRegion
  simp only [hf, he, Bool.false_eq_true, if_false]

theorem processRecordsOptimized_eq_empty (env : Env)
    (records : List EgrzRecord) (region : String) (userIds : List Nat)
    (db : DB) (res : ProcessingResult)
    (hn : (relevantNums records).isEmpty = true) :
    processRecordsOptimized env records region userIds db res
      = (db, res, Trace.nil) := by
  unfold processRecordsOptimized
  simp only [hn, if_true]

theorem processRecordsOptimized_eq_loop (env : Env)
    (records : List EgrzRecord) (region : String) (userIds : List Nat)
    (db : DB) (res : ProcessingResult)
    (hn : (relevantNums records).isEmpty = false) :
    processRecordsOptimized env records region userIds db res
      = processRecordsList env region userIds
          (sentCombinations db.parsedData userIds (relevantNums records))
          records db res := by
  unfold processRecordsOptimized
  simp only [hn, Bool.false_eq_true, if_false]

theorem regionStep_noop (env : Env) (m : RegionUserMap) (db : DB)
    (hdone : ∀ records,
      (fetchEgrzDataWithRetry (env.fetch m.region)).1 = Except.ok records →
      ∀ r ∈ records, relevantRecord r = true → recordDone db m.userIds r) :
    (regionStep env m db).1 = db ∧ (regionStep env m db).2.2 = Trace.nil := by
  cases hf : (fetchEgrzDataWithRetry (env.fetch m.region)).1 with
  | error e =>
    rw [regionStep_eq_error env m db e hf]
    exact ⟨by trivial, by trivial⟩
  | ok records =>
    have hrecs := hdone records hf
    cases hre : records.isEmpty with
    | true =>
      rw [regionStep_eq_empty env m db records hf hre]
      exact ⟨by trivial, by trivial⟩
    | false =>
      rw [regionStep_eq_records env m db records hf hre]
      cases hn : (relevantNums records).isEmpty with
      | true =>
        rw [processRecordsOptimized_eq_empty env records m.region m.userIds db
          _ hn]
        exact ⟨by trivial, by trivial⟩
      | false =>
        rw [processRecordsOptimized_eq_loop env records m.region m.userIds db
          _ hn]
        apply processRecordsList_noop
        intro r hr hrel
        rcases hrecs r hr hrel with hfacts | hcache
        · left
          intro u hu
          exact (mem_sentCombinations_iff db.parsedData m.userIds
            (relevantNums records) u r.conclusionNumber hu
            (mem_relevantNums hr hrel)).2 (hfacts u hu)
        · right
          exact hcache

theorem regionStep_establishes (env : Env) (m : RegionUserMap) (db : DB)
    (hsend : ∀ u n, env.sendOk u n = SendOutcome.success) :
    DB.evolves db (regionStep env m db).1 ∧
    ∀ records,
      (fetchEgrzDataWithRetry (env.fetch m.region)).1 = Except.ok records →
      ∀ r ∈ records, relevantRecord r = true →
        recordDone (regionStep env m db).1 m.userIds r := by
  cases hf : (fetchEgrzDataWithRetry (env.fetch m.region)).1 with
  | error e =>
    rw [regionStep_eq_error env m db e hf]
    refine ⟨DB.evolves_refl db, ?_⟩
    intro records hrec
    cases hrec
  | ok records0 =>
    have hinj : ∀ records : List EgrzRecord,
        (Except.ok records0 : Except Unit (List EgrzRecord)) = Except.ok records →
        records = records0 := by
      intro records hrec
      cases hrec
      rfl
    cases hre : records0.isEmpty with
    | true =>
      rw [regionStep_eq_empty env m db records0 hf hre]
      refine ⟨DB.evolves_refl db, ?_⟩
      intro records hrec r hr _
      rw [hinj records hrec] at hr
      rw [List.isEmpty_iff.1 hre] at hr
      cases hr
    | false =>
      rw [regionStep_eq_records env m db records0 hf hre]
      cases hn : (relevantNums records0).isEmpty with
      | true =>
        rw [processRecordsOptimized_eq_empty env records0 m.region m.userIds db
          _ hn]
        refine ⟨DB.evolves_refl db, ?_⟩
        intro records hrec r hr hrel
        rw [hinj records hrec] at hr
        exfalso
        have := mem_relevantNums hr hrel
        rw [List.isEmpty_iff.1 hn] at this
        cases this
      | false =>
        rw [processRecordsOptimized_eq_loop env records0 m.region m.userIds db
          _ hn]
        obtain ⟨hev, hdone⟩ := processRecordsList_establishes env m.region
          m.userIds (sentCombinations db.parsedData m.userIds
            (relevantNums records0)) hsend records0 db
          ⟨m.region, records0.length, 0, 0, 0⟩
          (fun u num hk => sentCombinations_sound db.parsedData m.userIds
            (relevantNums records0) u num hk)
        refine ⟨hev, ?_⟩
        intro records hrec r hr hrel
        rw [hinj records hrec] at hr
        exact hdone r hr hrel

theorem executeMainTask_noop (env : Env) :
    ∀ (maps : List RegionUserMap) (db : DB),
      (∀ m ∈ maps, ∀ records,
        (fetchEgrzDataWithRetry (env.fetch m.region)).1 = Except.ok records →
        ∀ r ∈ records, relevantRecord r = true → recordDone db m.userIds r) →
      (executeMainTask env maps db).1 = db ∧
      (executeMainTask env maps db).2.2 = Trace.nil := by
  intro maps
  induction maps with
  | nil => intro db _; exact ⟨by trivial, by trivial⟩
  | cons m rest ih =>
    intro db hdone
    have hstep := regionStep_noop env m db (hdone m (List.mem_cons_self _ _))
    simp only [executeMainTask]
    rw [hstep.1, hstep.2]
    obtain ⟨ih1, ih2⟩ := ih db
      (fun m2 hm2 => hdone m2 (List.mem_cons_of_mem _ hm2))
    rw [ih1, ih2, Trace.nil_app]
    exact ⟨by trivial, by trivial⟩

theorem executeMainTask_establishes (env : Env)
    (hsend : ∀ u n, env.sendOk u n = SendOutcome.success) :
    ∀ (maps : List RegionUserMap) (db : DB),
      DB.evolves db (executeMainTask env maps db).1 ∧
      ∀ m ∈ maps, ∀ records,
        (fetchEgrzDataWithRetry (env.fetch m.region)).1 = Except.ok records →
        ∀ r ∈ records, relevantRecord r = true →
          recordDone (executeMainTask env maps db).1 m.userIds r := by
  intro maps
  induction maps with
  | nil =>
    intro db
    exact ⟨DB.evolves_refl db, by simp⟩
  | cons m rest ih =>
    intro db
    simp only [executeMainTask]
    have hstep := regionStep_establishes env m db hsend
    obtain ⟨ih_ev, ih_done⟩ := ih (regionStep env m db).1
    refine ⟨DB.evolves_trans hstep.1 ih_ev, ?_⟩
    intro m2 hm2 records hrec r hr hrel
    rcases List.mem_cons.1 hm2 with he | hm3
    · subst he
      exact recordDone_mono ih_ev m2.userIds r
        (hstep.2 records hrec r hr hrel)
    · exact ih_done m2 hm3 records hrec r hr hrel

-- =================================================================
-- Claim C1
-- =================================================================

/-- C1 as stated is false: a completed run whose send failed (here the
single subscriber has blocked the bot) records no delivery fact, so
re-running the pipeline over the identical registry snapshot and
subscriptions attempts the send again — the second run performs one new
send attempt instead of zero. -/
theorem c1_counterexample :
    (executeMainTask demoEnvBlocked [⟨"Вологодская - 35", [7]⟩]
        (executeMainTask demoEnvBlocked [⟨"Вологодская - 35", [7]⟩]
          emptyDB).1).2.2.sends = [(7, "N-1")] := by
  decide

/-- C1 amended: provided every send of the first run succeeds (so every
(subscriber, relevant record) pair obtains its delivery fact), re-running
the pipeline over the unchanged registry snapshot and subscriptions
produces zero new sends, zero new cache writes and leaves the store
unchanged: each record's recipient subset is computed empty (or the record
is skipped), so no enrichment and no write happens. -/
theorem c1_rerun_is_noop (env : Env) (maps : List RegionUserMap) (db0 : DB)
    (hsend : ∀ u n, env.sendOk u n = SendOutcome.success) :
    (executeMainTask env maps (executeMainTask env maps db0).1).2.2
      = Trace.nil ∧
    (executeMainTask env maps (executeMainTask env maps db0).1).1
      = (executeMainTask env maps db0).1 := by
  obtain ⟨_, hdone⟩ := executeMainTask_establishes env hsend maps db0
  obtain ⟨hdb, htr⟩ := executeMainTask_noop env maps
    (executeMainTask env maps db0).1 hdone
  exact ⟨htr, hdb⟩

/-- Witness for the amended C1: with all sends succeeding, the second run
over the same snapshot changes nothing and performs no sends or writes. -/
theorem c1_rerun_is_noop_witness :
    (∀ u n, demoEnvOk.sendOk u n = SendOutcome.success) ∧
    (executeMainTask demoEnvOk [⟨"Вологодская - 35", [7]⟩]
        (executeMainTask demoEnvOk [⟨"Вологодская - 35", [7]⟩] emptyDB).1).2.2
      = Trace.nil ∧
    (executeMainTask demoEnvOk [⟨"Вологодская - 35", [7]⟩]
        (executeMainTask demoEnvOk [⟨"Вологодская - 35", [7]⟩] emptyDB).1).1
      = (executeMainTask demoEnvOk [⟨"Вологодская - 35", [7]⟩] emptyDB).1 :=
  ⟨fun _ _ => rfl,
   (c1_rerun_is_noop demoEnvOk [⟨"Вологодская - 35", [7]⟩] emptyDB
     (fun _ _ => rfl)).1,
   (c1_rerun_is_noop demoEnvOk [⟨"Вологодская - 35", [7]⟩] emptyDB
     (fun _ _ => rfl)).2⟩
